import Mathlib

/-
  Verification development for the PeleC Riemann-flux reproducer kernel
  (src/kernels/pele/pelec_repro2_dodecane_lu.cpp).

  The device kernel is straight-line double arithmetic; here it is embedded
  shallowly over an arbitrary linear ordered field, which models the exact
  (real-number) arithmetic reading of the algorithm.  The thermodynamic
  subroutines RPY2Cs and RYP2E call into the external chemistry header
  dodecane_lu.h (CKMMWY, CKCVMS, CKUMS) and a square root; the specification
  treats them as opaque pure collaborators, so the embedding takes them as an
  opaque Oracle parameter.  Their wrapper structure is also reproduced below
  from the source, parameterised over the opaque chemistry capability set.
-/

set_option maxHeartbeats 1000000
set_option linter.unusedSectionVars false

namespace Pele

/-- Floor constant wsmall, the value of std numeric limits min for double,
which is 2 to the power -1022. -/
def wsmall (α : Type) [LinearOrderedField α] : α := 1 / 2 ^ 1022

/-- Tunable floor smallu = 1e-12 from constants::smallu(). -/
def smallu (α : Type) [LinearOrderedField α] : α := 1 / 10 ^ 12

/-- Tunable floor small_num = 1e-8 from constants::small_num(). -/
def small_num (α : Type) [LinearOrderedField α] : α := 1 / 10 ^ 8

/-- constants::very_small_num() = epsilon * 1e-100 where epsilon is the double
machine epsilon 2 to the power -52. -/
def very_small_num (α : Type) [LinearOrderedField α] : α :=
  (1 / 2 ^ 52) * (1 / 10 ^ 100)

/-- Universal gas constant in CGS, Constants::RU = 8.31446261815324e7. -/
def RU (α : Type) [LinearOrderedField α] : α := 831446261815324 / 10 ^ 7

/-- Opaque chemistry capability set from the external header dodecane_lu.h,
together with the library square root; all are pure functions of their
arguments (spec section 4.1). -/
structure ChemModel (α : Type) (S : ℕ) where
  ckmmwy : (Fin S → α) → α
  ckcvms : α → Fin S → α
  ckums : α → Fin S → α
  sqrtFn : α → α

variable {α : Type} [LinearOrderedField α] {S : ℕ}

/-- EOS adapter RPY2Cs from the source: sound speed from density, pressure and
mass fractions through the opaque chemistry model. -/
def RPY2Cs (C : ChemModel α S) (R P : α) (Y : Fin S → α) : α :=
  let wbar := C.ckmmwy Y
  let T := P * wbar / (R * RU α)
  let Cv := ∑ i, Y i * C.ckcvms T i
  let G := (wbar * Cv + RU α) / (wbar * Cv)
  C.sqrtFn (G * P / R)

/-- EOS adapter RYP2E from the source: mass specific internal energy. -/
def RYP2E (C : ChemModel α S) (R : α) (Y : Fin S → α) (P : α) : α :=
  let wbar := C.ckmmwy Y
  let T := P * wbar / (R * RU α)
  ∑ n, Y n * C.ckums T n

/-- The two thermodynamic collaborators the riemann routine calls:
cs R P Y is RPY2Cs and en R Y P is RYP2E.  The solver proofs treat them as
opaque pure functions, exactly as the specification prescribes. -/
structure Oracle (α : Type) (S : ℕ) where
  cs : α → α → (Fin S → α) → α
  en : α → (Fin S → α) → α → α

/-- An Oracle obtained from a concrete chemistry model via the source EOS
adapters. -/
def ChemModel.toOracle (C : ChemModel α S) : Oracle α S :=
  ⟨fun R P Y => RPY2Cs C R P Y, fun R Y P => RYP2E C R Y P⟩

/-- The scalar inputs of the riemann routine: left state, right state,
boundary sign and precomputed face average sound speed.  Field order:
rl ul vl v2l pl spl, rr ur vr v2r pr spr, bc cav. -/
structure RiemannInput (α : Type) (S : ℕ) where
  rl : α
  ul : α
  vl : α
  v2l : α
  pl : α
  spl : Fin S → α
  rr : α
  ur : α
  vr : α
  v2r : α
  pr : α
  spr : Fin S → α
  bc : α
  cav : α

variable (O : Oracle α S) (q : RiemannInput α S)

/-- Left sound speed cl = RPY2Cs(rl, pl, spl). -/
def cl : α := O.cs q.rl q.pl q.spl

/-- Right sound speed cr = RPY2Cs(rr, pr, spr). -/
def cr : α := O.cs q.rr q.pr q.spr

/-- Left acoustic impedance wl = max(wsmall, cl * rl). -/
def wl : α := max (wsmall α) (cl O q * q.rl)

/-- Right acoustic impedance wr = max(wsmall, cr * rr). -/
def wr : α := max (wsmall α) (cr O q * q.rr)

/-- Two-shock star pressure with the wsmall floor. -/
def pstar : α :=
  max (wsmall α)
    (((wr O q * q.pl + wl O q * q.pr) + wl O q * wr O q * (q.ul - q.ur)) /
      (wl O q + wr O q))

/-- Star velocity before the sonic filter (the first assignment to ustar). -/
def ustar0 : α :=
  ((wl O q * q.ul + wr O q * q.ur) + (q.pl - q.pr)) / (wl O q + wr O q)

/-- Species partial densities of the upwind state, first mask (ustar > 0). -/
def rspo0 (n : Fin S) : α :=
  if 0 < ustar0 O q then q.rl * q.spl n else q.rr * q.spr n

/-- Upwind normal velocity, first mask. -/
def uo0 : α := if 0 < ustar0 O q then q.ul else q.ur

/-- Upwind pressure, first mask. -/
def po0 : α := if 0 < ustar0 O q then q.pl else q.pr

/-- The sonic filter condition: abs ustar below half of smallu times the sum
of the input speed magnitudes, or ustar exactly zero. -/
abbrev engaged : Prop :=
  |ustar0 O q| < smallu α * (1 / 2) * (|q.ul| + |q.ur|) ∨ ustar0 O q = 0

/-- Star velocity after the sonic filter (the ustar value the routine
returns). -/
def ustar1 : α := if engaged O q then 0 else ustar0 O q

/-- Upwind species partial densities after the sonic filter. -/
def rspo1 (n : Fin S) : α :=
  if engaged O q then (1 / 2) * (q.rl * q.spl n + q.rr * q.spr n)
  else rspo0 O q n

/-- Upwind velocity after the sonic filter. -/
def uo1 : α := if engaged O q then (1 / 2) * (q.ul + q.ur) else uo0 O q

/-- Upwind pressure after the sonic filter. -/
def po1 : α := if engaged O q then (1 / 2) * (q.pl + q.pr) else po0 O q

/-- Upwind density ro, the sum of the upwind species partial densities. -/
def ro : α := ∑ n, rspo1 O q n

/-- Upwind mass fractions. -/
def Yo (n : Fin S) : α := rspo1 O q n / ro O q

/-- Upwind internal energy (computed then overwritten in the source). -/
def eo : α := O.en (ro O q) (Yo O q) (po1 O q)

/-- Upwind sound speed co. -/
def co : α := O.cs (ro O q) (po1 O q) (Yo O q)

/-- Linearised Lagrangian density correction drho = (pstar - po) / co^2. -/
def drho : α := (pstar O q - po1 O q) / (co O q * co O q)

/-- Star species partial densities with the clamp to zero. -/
def rspstar (n : Fin S) : α :=
  max 0 (rspo1 O q n + drho O q * (rspo1 O q n / ro O q))

/-- Star density. -/
def rstar : α := ∑ n, rspstar O q n

/-- Star mass fractions. -/
def Ystar (n : Fin S) : α := rspstar O q n / rstar O q

/-- Star sound speed. -/
def cstar : α := O.cs (rstar O q) (pstar O q) (Ystar O q)

/-- copysign(1.0, ustar); ustar is a positive zero whenever it is zero here,
because the filter assigns the literal 0.0. -/
def sgnm : α := if ustar1 O q < 0 then -1 else 1

/-- Outer wave speed before the shock collapse. -/
def spout0 : α := co O q - sgnm O q * uo1 O q

/-- Inner wave speed before the shock collapse. -/
def spin0 : α := cstar O q - sgnm O q * ustar1 O q

/-- Shock speed, the mean of the two wave speeds. -/
def ushock : α := (1 / 2) * (spin0 O q + spout0 O q)

/-- Rarefaction test pstar < po (the mask kept for spout and spin). -/
abbrev rare : Prop := pstar O q < po1 O q

/-- Outer wave speed after the shock collapse. -/
def spoutA : α := if rare O q then spout0 O q else ushock O q

/-- Inner wave speed after the shock collapse. -/
def spinA : α := if rare O q then spin0 O q else ushock O q

/-- Guarded fan width scr. -/
def scr : α :=
  if |spoutA O q - spinA O q| < very_small_num α then small_num α * q.cav
  else spoutA O q - spinA O q

/-- Fan fraction, clamped to the unit interval. -/
def frac : α :=
  max 0 (min 1 ((1 + (spoutA O q + spinA O q) / scr O q) * (1 / 2)))

/-- First transverse interface velocity, upwind pick. -/
def qiv1a : α := if 0 < ustar1 O q then q.vl else q.vr

/-- Second transverse interface velocity, upwind pick. -/
def qiv2a : α := if 0 < ustar1 O q then q.v2l else q.v2r

/-- First transverse interface velocity after the ustar = 0 averaging. -/
def qiv1 : α := if ustar1 O q = 0 then (1 / 2) * (q.vl + q.vr) else qiv1a O q

/-- Second transverse interface velocity after the ustar = 0 averaging. -/
def qiv2 : α :=
  if ustar1 O q = 0 then (1 / 2) * (q.v2l + q.v2r) else qiv2a O q

/-- Interior fan sample of the species partial densities. -/
def rspgd0 (n : Fin S) : α :=
  frac O q * rspstar O q n + (1 - frac O q) * rspo1 O q n

/-- Interior fan sample of the normal velocity. -/
def qiu0 : α := frac O q * ustar1 O q + (1 - frac O q) * uo1 O q

/-- Interior fan sample of the pressure. -/
def qp0 : α := frac O q * pstar O q + (1 - frac O q) * po1 O q

/-- Fan located fully left of the interface: spout < 0. -/
abbrev mOut : Prop := spoutA O q < 0

/-- Species partial densities after the spout < 0 override. -/
def rspgd1 (n : Fin S) : α := if mOut O q then rspo1 O q n else rspgd0 O q n

/-- Normal velocity after the spout < 0 override. -/
def qiu1 : α := if mOut O q then uo1 O q else qiu0 O q

/-- Pressure after the spout < 0 override. -/
def qp1 : α := if mOut O q then po1 O q else qp0 O q

/-- Fan located fully right of the interface: spin >= 0. -/
abbrev mIn : Prop := 0 ≤ spinA O q

/-- Species partial densities after the spin >= 0 override. -/
def rspgd2 (n : Fin S) : α := if mIn O q then rspstar O q n else rspgd1 O q n

/-- Normal velocity after the spin >= 0 override. -/
def qiu2 : α := if mIn O q then ustar1 O q else qiu1 O q

/-- Pressure after the spin >= 0 override (the returned qint_gdpres). -/
def qp2 : α := if mIn O q then pstar O q else qp1 O q

/-- Godunov interface density rgd. -/
def rgd : α := ∑ n, rspgd2 O q n

/-- Godunov interface mass fractions. -/
def Ygd (n : Fin S) : α := rspgd2 O q n / rgd O q

/-- Godunov interface internal energy. -/
def egd : α := O.en (rgd O q) (Ygd O q) (qp2 O q)

/-- regd = rgd * egd. -/
def regd : α := rgd O q * egd O q

/-- Effective gamma qint_gdgame = qint_gdpres / regd + 1. -/
def game : α := qp2 O q / regd O q + 1

/-- Final interface normal velocity qint_iu = bc_test_val * (sampled u). -/
def qiuF : α := q.bc * qiu2 O q

/-- Mass flux uflx_rho = rgd * qint_iu. -/
def uflx_rho : α := rgd O q * qiuF O q

/-- Species fluxes computed inside the riemann routine (discarded by the
driver into dummy storage). -/
def uflx_rhoY (n : Fin S) : α := rspgd2 O q n * qiuF O q

/-- Normal momentum flux uflx_u = uflx_rho * qint_iu + qint_gdpres. -/
def uflx_u : α := uflx_rho O q * qiuF O q + qp2 O q

/-- First tangential momentum flux. -/
def uflx_v : α := uflx_rho O q * qiv1 O q

/-- Second tangential momentum flux. -/
def uflx_w : α := uflx_rho O q * qiv2 O q

/-- Total energy density at the interface. -/
def rhoetot : α :=
  regd O q +
    (1 / 2) * rgd O q *
      (qiuF O q * qiuF O q + qiv1 O q * qiv1 O q + qiv2 O q * qiv2 O q)

/-- Total energy flux. -/
def uflx_eden : α := qiuF O q * (rhoetot O q + qp2 O q)

/-- Internal energy flux. -/
def uflx_eint : α := qiuF O q * regd O q

/-- The outputs of the riemann routine, in the order of its reference
parameters. -/
structure RiemannOut (α : Type) (S : ℕ) where
  ustar : α
  uflx_rho : α
  uflx_rhoY : Fin S → α
  uflx_u : α
  uflx_v : α
  uflx_w : α
  uflx_eden : α
  uflx_eint : α
  qint_iu : α
  qint_iv1 : α
  qint_iv2 : α
  qint_gdpres : α
  qint_gdgame : α

/-- The riemann routine of the source, assembled from the staged values
above; each field is the final value the routine stores through the
corresponding reference parameter. -/
def riemann : RiemannOut α S :=
  ⟨ustar1 O q, uflx_rho O q, uflx_rhoY O q, uflx_u O q, uflx_v O q,
    uflx_w O q, uflx_eden O q, uflx_eint O q, qiuF O q, qiv1 O q, qiv2 O q,
    qp2 O q, game O q⟩

/-- Physically admissible state pair: positive densities, positive
pressures, unit sum nonnegative mass fractions on both sides. -/
def Adm : Prop :=
  0 < q.rl ∧ 0 < q.rr ∧ 0 < q.pl ∧ 0 < q.pr ∧
    (∑ n, q.spl n) = 1 ∧ (∑ n, q.spr n) = 1 ∧
    (∀ n, 0 ≤ q.spl n) ∧ (∀ n, 0 ≤ q.spr n)

/-- Mirror transformation: swap left and right and negate the normal
velocities, keeping bc and cav. -/
def mirror : RiemannInput α S :=
  ⟨q.rr, -q.ur, q.vr, q.v2r, q.pr, q.spr,
    q.rl, -q.ul, q.vl, q.v2l, q.pl, q.spl, q.bc, q.cav⟩

/-! ## Face-flux driver pc_cmpflx -/

/-- Component indices of the conservative flux record. -/
def URHO : ℤ := 0

/-- Normal or transverse momentum components. -/
def UMX : ℤ := 1

def UMY : ℤ := 2

def UMZ : ℤ := 3

def UEDEN : ℤ := 4

def UEINT : ℤ := 5

/-- First species flux component, UFA + NUM_ADV with NUM_ADV = 0. -/
def UFS : ℤ := 7

/-- Component indices of the primitive array. -/
def QRHO : ℤ := 0

def QU : ℤ := 1

def QV : ℤ := 2

def QW : ℤ := 3

def QPRES : ℤ := 5

/-- First species mass fraction component, QFA + NUM_ADV with NUM_ADV = 0. -/
def QFS : ℤ := 8

/-- Sound speed component of the auxiliary array. -/
def QC : ℤ := 1

/-- Components of the Godunov interface array. -/
def GDU : ℤ := 1

def GDV : ℤ := 2

def GDW : ℤ := 3

def GDPRES : ℤ := 4

def GDGAME : ℤ := 5

/-- Strided field metadata: per axis strides and origin, x unit stride. -/
structure Strided where
  jstride : ℤ
  kstride : ℤ
  nstride : ℤ
  beginx : ℤ
  beginy : ℤ
  beginz : ℤ

/-- Flat offset of logical index (i, j, k, n) in a strided field. -/
def Strided.off (s : Strided) (i j k n : ℤ) : ℤ :=
  (i - s.beginx) + (j - s.beginy) * s.jstride + (k - s.beginz) * s.kstride +
    n * s.nstride

/-- Functional array write at one flat offset. -/
def writeAt (a : ℤ → α) (o : ℤ) (v : α) : ℤ → α :=
  fun m => if m = o then v else a m

/-- Normal velocity component for the face direction. -/
def IUof (dir : ℤ) : ℤ := if dir = 0 then QU else if dir = 1 then QV else QW

/-- First transverse component for the face direction. -/
def IVof (dir : ℤ) : ℤ := if dir = 0 then QV else QU

/-- Second transverse component for the face direction. -/
def IV2of (dir : ℤ) : ℤ := if dir = 0 then QW else if dir = 1 then QW else QV

/-- Interface array component receiving the normal velocity. -/
def GUof (dir : ℤ) : ℤ :=
  if dir = 0 then GDU else if dir = 1 then GDV else GDW

/-- Interface array component receiving the first transverse velocity. -/
def GVof (dir : ℤ) : ℤ := if dir = 0 then GDV else GDU

/-- Interface array component receiving the second transverse velocity. -/
def GV2of (dir : ℤ) : ℤ :=
  if dir = 0 then GDW else if dir = 1 then GDW else GDV

/-- Flux component receiving the normal momentum flux (f_idx[0]). -/
def f0of (dir : ℤ) : ℤ := if dir = 0 then UMX else if dir = 1 then UMY else UMZ

/-- Flux component receiving the first transverse momentum flux. -/
def f1of (dir : ℤ) : ℤ := if dir = 0 then UMY else UMX

/-- Flux component receiving the second transverse momentum flux. -/
def f2of (dir : ℤ) : ℤ := if dir = 0 then UMZ else if dir = 1 then UMZ else UMY

/-- Face average sound speed: mean of the auxiliary sound speed at the cell
and at the neighbour one unit back along the face direction. -/
def cavOf (qa : ℤ → α) (sqa : Strided) (i j k dir : ℤ) : α :=
  if dir = 0 then
    (1 / 2) * (qa (sqa.off i j k QC) + qa (sqa.off (i - 1) j k QC))
  else if dir = 1 then
    (1 / 2) * (qa (sqa.off i j k QC) + qa (sqa.off i (j - 1) k QC))
  else (1 / 2) * (qa (sqa.off i j k QC) + qa (sqa.off i j (k - 1) QC))

/-- The riemann input the driver assembles from its strided array reads for
one cell; bc_test_val is hardcoded to 1 in the source. -/
def pcInput (i j k : ℤ) (ql : ℤ → α) (sql : Strided) (qr : ℤ → α)
    (sqr : Strided) (qa : ℤ → α) (sqa : Strided) (dir : ℤ) :
    RiemannInput α S :=
  ⟨ql (sql.off i j k QRHO), ql (sql.off i j k (IUof dir)),
    ql (sql.off i j k (IVof dir)), ql (sql.off i j k (IV2of dir)),
    ql (sql.off i j k QPRES),
    fun sp => ql (sql.off i j k (QFS + (sp.val : ℤ))),
    qr (sqr.off i j k QRHO), qr (sqr.off i j k (IUof dir)),
    qr (sqr.off i j k (IVof dir)), qr (sqr.off i j k (IV2of dir)),
    qr (sqr.off i j k QPRES),
    fun sp => qr (sqr.off i j k (QFS + (sp.val : ℤ))),
    1, cavOf qa sqa i j k dir⟩

/-- Passive scalar upwind rule pc_cmpflx_passive from the source. -/
def pc_cmpflx_passive (ustar flxrho ql qr : α) : α :=
  if 0 < ustar then flxrho * ql
  else if ustar < 0 then flxrho * qr
  else flxrho * (1 / 2) * (ql + qr)

/-- Flux array state after the riemann call has written its six flux slots
through the reference parameters of the driver. -/
def pcFlx1 (O : Oracle α S) (i j k : ℤ) (ql : ℤ → α) (sql : Strided)
    (qr : ℤ → α) (sqr : Strided) (flx : ℤ → α) (sfl : Strided)
    (qa : ℤ → α) (sqa : Strided) (dir : ℤ) : ℤ → α :=
  let R := riemann O (pcInput i j k ql sql qr sqr qa sqa dir)
  writeAt
    (writeAt
      (writeAt
        (writeAt
          (writeAt (writeAt flx (sfl.off i j k URHO) R.uflx_rho)
            (sfl.off i j k (f0of dir)) R.uflx_u)
          (sfl.off i j k (f1of dir)) R.uflx_v)
        (sfl.off i j k (f2of dir)) R.uflx_w)
      (sfl.off i j k UEDEN) R.uflx_eden)
    (sfl.off i j k UEINT) R.uflx_eint

/-- Interface array state after the riemann call has written its five
interface slots. -/
def pcQ1 (O : Oracle α S) (i j k : ℤ) (ql : ℤ → α) (sql : Strided)
    (qr : ℤ → α) (sqr : Strided) (qA : ℤ → α) (sqi : Strided)
    (qa : ℤ → α) (sqa : Strided) (dir : ℤ) : ℤ → α :=
  let R := riemann O (pcInput i j k ql sql qr sqr qa sqa dir)
  writeAt
    (writeAt
      (writeAt
        (writeAt (writeAt qA (sqi.off i j k (GUof dir)) R.qint_iu)
          (sqi.off i j k (GVof dir)) R.qint_iv1)
        (sqi.off i j k (GV2of dir)) R.qint_iv2)
      (sqi.off i j k GDPRES) R.qint_gdpres)
    (sqi.off i j k GDGAME) R.qint_gdgame

/-- Value the passive upwind loop stores into species flux slot n: the mass
flux is read back from the URHO slot of the flux array after the riemann
writes. -/
def pcSpeciesVal (O : Oracle α S) (i j k : ℤ) (ql : ℤ → α) (sql : Strided)
    (qr : ℤ → α) (sqr : Strided) (flx : ℤ → α) (sfl : Strided)
    (qa : ℤ → α) (sqa : Strided) (dir : ℤ) (n : Fin S) : α :=
  pc_cmpflx_passive
    (riemann O (pcInput i j k ql sql qr sqr qa sqa dir)).ustar
    (pcFlx1 O i j k ql sql qr sqr flx sfl qa sqa dir (sfl.off i j k URHO))
    (ql (sql.off i j k (QFS + (n.val : ℤ))))
    (qr (sqr.off i j k (QFS + (n.val : ℤ))))

/-- The face-flux driver: reads the left and right primitive states, invokes
the riemann solver writing the flux and interface arrays, then overwrites
every species flux slot with the passive upwind value computed from the mass
flux read back from the flux array.  Returns the updated flux array and the
updated interface array. -/
def pc_cmpflx (O : Oracle α S) (i j k : ℤ) (ql : ℤ → α) (sql : Strided)
    (qr : ℤ → α) (sqr : Strided) (flx : ℤ → α) (sfl : Strided)
    (qA : ℤ → α) (sqi : Strided) (qa : ℤ → α) (sqa : Strided) (dir : ℤ) :
    (ℤ → α) × (ℤ → α) :=
  ((List.finRange S).foldl
    (fun a n =>
      writeAt a (sfl.off i j k (UFS + (n.val : ℤ)))
        (pcSpeciesVal O i j k ql sql qr sqr flx sfl qa sqa dir n))
    (pcFlx1 O i j k ql sql qr sqr flx sfl qa sqa dir),
   pcQ1 O i j k ql sql qr sqr qA sqi qa sqa dir)

/-! ## Launch orchestrator cell decomposition -/

/-- Cell decomposition of the linear counter in pc_cmpflx_launch: integer
divisions by lenxy and lenx, then offsets by lox, loy, loz. -/
def cellIndex (icell lenx lenxy : ℕ) (lox loy loz : ℤ) : ℤ × ℤ × ℤ :=
  let k := icell / lenxy
  let j := (icell - k * lenxy) / lenx
  let i := (icell - k * lenxy) - j * lenx
  (((i : ℤ) + lox, (j : ℤ) + loy, (k : ℤ) + loz))

/-! ## Host pool partition (main) -/

/-- sizeof(double) in bytes. -/
def sizeofDouble : ℕ := 8

/-- The nine array sizes read from the sidecar metadata, in doubles. -/
structure PoolSizes where
  qmxy : ℕ
  qpxy : ℕ
  flxy : ℕ
  qxy : ℕ
  qmxz : ℕ
  qpxz : ℕ
  flxz : ℕ
  qxz : ℕ

/-- Element offset (in doubles from the pool base) of qmxy: the pool base. -/
def qmxyOff : ℕ := 0

/-- Element offset of qpxy: the source advances the double pointer qmxy by
size_qmxy * sizeof(double) elements. -/
def qpxyOff (s : PoolSizes) : ℕ := qmxyOff + s.qmxy * sizeofDouble

/-- Element offset of flxy. -/
def flxyOff (s : PoolSizes) : ℕ := qpxyOff s + s.qpxy * sizeofDouble

/-- Element offset of qxy. -/
def qxyOff (s : PoolSizes) : ℕ := flxyOff s + s.flxy * sizeofDouble

/-- Element offset of qmxz. -/
def qmxzOff (s : PoolSizes) : ℕ := qxyOff s + s.qxy * sizeofDouble

/-- Element offset of qpxz. -/
def qpxzOff (s : PoolSizes) : ℕ := qmxzOff s + s.qmxz * sizeofDouble

/-- Element offset of flxz. -/
def flxzOff (s : PoolSizes) : ℕ := qpxzOff s + s.qpxz * sizeofDouble

/-- Element offset of qxz. -/
def qxzOff (s : PoolSizes) : ℕ := flxzOff s + s.flxz * sizeofDouble

/-- Element offset of qaux. -/
def qauxOff (s : PoolSizes) : ℕ := qxzOff s + s.qxz * sizeofDouble

/-! ## Concrete instances used to witness the theorems -/

/-- Constant oracle: unit sound speed and unit internal energy. -/
def oC : Oracle ℚ 1 := ⟨fun _ _ _ => 1, fun _ _ _ => 1⟩

/-- Oracle with sound speed one half and unit internal energy. -/
def oH : Oracle ℚ 1 := ⟨fun _ _ _ => 1 / 2, fun _ _ _ => 1⟩

/-- Single species mass fraction vector. -/
def oneY : Fin 1 → ℚ := fun _ => 1

/-- Identical left and right states with a pressure below wsmall. -/
def qX2 : RiemannInput ℚ 1 :=
  ⟨1, 1 / 2, 0, 0, 1 / 2 ^ 1023, oneY, 1, 1 / 2, 0, 0, 1 / 2 ^ 1023, oneY,
    1, 1⟩

/-- Stationary contact with a pressure below wsmall. -/
def qX5 : RiemannInput ℚ 1 :=
  ⟨1, 0, 0, 0, 1 / 2 ^ 1023, oneY, 2, 0, 0, 0, 1 / 2 ^ 1023, oneY, 1, 1⟩

/-- Uniform flow: both sides (1, 500, 0, 0, 10^6, 1). -/
def qU : RiemannInput ℚ 1 :=
  ⟨1, 500, 0, 0, 10 ^ 6, oneY, 1, 500, 0, 0, 10 ^ 6, oneY, 1, 1⟩

/-- Identical sides with normal velocity 1e-20. -/
def qN : RiemannInput ℚ 1 :=
  ⟨1, 1 / 10 ^ 20, 0, 0, 1, oneY, 1, 1 / 10 ^ 20, 0, 0, 1, oneY, 1, 1⟩

/-- Strong expansion: opposite velocities, used to reach the species
clamp. -/
def qc4 : RiemannInput ℚ 1 := ⟨1, -10, 0, 0, 1, oneY, 1, 10, 0, 0, 1, oneY, 1, 1⟩

/-- Stationary contact with ordinary pressure. -/
def qS : RiemannInput ℚ 1 :=
  ⟨1, 0, 0, 0, 10 ^ 6, oneY, 2, 0, 0, 0, 10 ^ 6, oneY, 1, 1⟩

/-- Constant one array. -/
def onesA : ℤ → ℚ := fun _ => 1

/-- Constant zero array. -/
def zeroA : ℤ → ℚ := fun _ => 0

/-- Unit strides with zero origin. -/
def sOne : Strided := ⟨1, 1, 1, 0, 0, 0⟩

/-! ## Basic lemmas -/

lemma riemann_ustar : (riemann O q).ustar = ustar1 O q := rfl

lemma riemann_uflx_rho : (riemann O q).uflx_rho = uflx_rho O q := rfl

lemma riemann_uflx_u : (riemann O q).uflx_u = uflx_u O q := rfl

lemma riemann_uflx_v : (riemann O q).uflx_v = uflx_v O q := rfl

lemma riemann_uflx_w : (riemann O q).uflx_w = uflx_w O q := rfl

lemma riemann_uflx_eden : (riemann O q).uflx_eden = uflx_eden O q := rfl

lemma riemann_qint_iu : (riemann O q).qint_iu = qiuF O q := rfl

lemma riemann_qint_iv1 : (riemann O q).qint_iv1 = qiv1 O q := rfl

lemma riemann_qint_iv2 : (riemann O q).qint_iv2 = qiv2 O q := rfl

lemma riemann_qint_gdpres : (riemann O q).qint_gdpres = qp2 O q := rfl

lemma wsmall_pos : (0 : α) < wsmall α := by unfold wsmall; positivity

lemma wl_pos : (0 : α) < wl O q :=
  lt_of_lt_of_le (wsmall_pos) (le_max_left _ _)

lemma wr_pos : (0 : α) < wr O q :=
  lt_of_lt_of_le (wsmall_pos) (le_max_left _ _)

lemma not_engaged_ne (h : ¬ engaged O q) : ustar0 O q ≠ 0 :=
  fun h0 => h (Or.inr h0)

lemma ustar1_of_not_engaged (h : ¬ engaged O q) : ustar1 O q = ustar0 O q :=
  if_neg h

/-- Full trace of the riemann routine on identical left and right states
with nonzero normal velocity and pressure at least wsmall. -/
lemma trivial_state (hrr : q.rr = q.rl) (hur : q.ur = q.ul)
    (hvr : q.vr = q.vl) (hv2r : q.v2r = q.v2l) (hpr : q.pr = q.pl)
    (hspr : q.spr = q.spl) (hu : q.ul ≠ 0) (hadm : Adm q)
    (hP : wsmall α ≤ q.pl) :
    ¬ engaged O q ∧ (riemann O q).ustar = q.ul ∧
    (riemann O q).qint_gdpres = q.pl ∧
    (riemann O q).qint_iu = q.bc * q.ul ∧
    (riemann O q).qint_iv1 = q.vl ∧ (riemann O q).qint_iv2 = q.v2l ∧
    (riemann O q).uflx_rho = q.rl * (q.bc * q.ul) ∧
    (riemann O q).uflx_u = q.rl * (q.bc * q.ul) * (q.bc * q.ul) + q.pl ∧
    (riemann O q).uflx_v = q.rl * (q.bc * q.ul) * q.vl ∧
    (riemann O q).uflx_w = q.rl * (q.bc * q.ul) * q.v2l := by
  obtain ⟨hrl, -, hpl, -, hsl, -, hslnn, -⟩ := hadm
  have hcr : cr O q = cl O q := by rw [cr, cl, hrr, hpr, hspr]
  have hwr : wr O q = wl O q := by rw [wr, wl, hcr, hrr]
  have hwl0 : (0 : α) < wl O q := wl_pos O q
  have hden : wl O q + wl O q ≠ 0 := by positivity
  have hustar0 : ustar0 O q = q.ul := by
    rw [ustar0, hwr, hur, hpr, div_eq_iff hden]; ring
  have hne : ¬ engaged O q := by
    rintro (h | h)
    · rw [hustar0, hur] at h
      have hsm : smallu α * (1 / 2) * (|q.ul| + |q.ul|) = smallu α * |q.ul| :=
        by ring
      rw [hsm] at h
      have h1 : smallu α * |q.ul| ≤ 1 * |q.ul| := by
        apply mul_le_mul_of_nonneg_right _ (abs_nonneg _)
        rw [smallu]; norm_num
      rw [one_mul] at h1
      exact absurd (lt_of_lt_of_le h h1) (lt_irrefl _)
    · rw [hustar0] at h; exact hu h
  have hust1 : ustar1 O q = q.ul := by
    rw [ustar1_of_not_engaged O q hne, hustar0]
  have hrspo1 : ∀ n, rspo1 O q n = q.rl * q.spl n := by
    intro n
    rw [rspo1, if_neg hne, rspo0]
    split_ifs with h
    · rfl
    · rw [hrr, hspr]
  have hro : ro O q = q.rl := by
    rw [ro]
    calc ∑ n, rspo1 O q n = ∑ n, q.rl * q.spl n :=
          Finset.sum_congr rfl fun n _ => hrspo1 n
      _ = q.rl * ∑ n, q.spl n := by rw [Finset.mul_sum]
      _ = q.rl := by rw [hsl, mul_one]
  have huo1 : uo1 O q = q.ul := by
    rw [uo1, if_neg hne, uo0]
    split_ifs with h
    · rfl
    · exact hur
  have hpo1 : po1 O q = q.pl := by
    rw [po1, if_neg hne, po0]
    split_ifs with h
    · rfl
    · exact hpr
  have hpstar : pstar O q = q.pl := by
    rw [pstar, hwr, hpr, hur]
    have h2 :
        ((wl O q * q.pl + wl O q * q.pl) + wl O q * wl O q * (q.ul - q.ul)) /
          (wl O q + wl O q) = q.pl := by rw [div_eq_iff hden]; ring
    rw [h2]
    exact max_eq_right hP
  have hdrho : drho O q = 0 := by
    rw [drho, hpstar, hpo1, sub_self, zero_div]
  have hrspstar : ∀ n, rspstar O q n = q.rl * q.spl n := by
    intro n
    rw [rspstar, hdrho, zero_mul, add_zero, hrspo1 n]
    exact max_eq_right (mul_nonneg hrl.le (hslnn n))
  have hrstar : rstar O q = q.rl := by
    rw [rstar]
    calc ∑ n, rspstar O q n = ∑ n, q.rl * q.spl n :=
          Finset.sum_congr rfl fun n _ => hrspstar n
      _ = q.rl * ∑ n, q.spl n := by rw [Finset.mul_sum]
      _ = q.rl := by rw [hsl, mul_one]
  have hYs : Ystar O q = Yo O q := by
    funext n
    rw [Ystar, Yo, hrspstar n, hrspo1 n, hrstar, hro]
  have hcstar : cstar O q = co O q := by
    rw [cstar, co, hrstar, hro, hpstar, hpo1, hYs]
  have hspin : spin0 O q = spout0 O q := by
    rw [spin0, spout0, hcstar, hust1, huo1]
  have hushock : ushock O q = spout0 O q := by rw [ushock, hspin]; ring
  have hspoutA : spoutA O q = spout0 O q := by
    rw [spoutA]; split_ifs with h
    · rfl
    · exact hushock
  have hspinA : spinA O q = spout0 O q := by
    rw [spinA]; split_ifs with h
    · exact hspin
    · exact hushock
  have hrspgd0 : ∀ n, rspgd0 O q n = q.rl * q.spl n := by
    intro n; rw [rspgd0, hrspstar n, hrspo1 n]; ring
  have hqiu0 : qiu0 O q = q.ul := by rw [qiu0, hust1, huo1]; ring
  have hqp0 : qp0 O q = q.pl := by rw [qp0, hpstar, hpo1]; ring
  have hrspgd2 : ∀ n, rspgd2 O q n = q.rl * q.spl n := by
    intro n
    rw [rspgd2, rspgd1]
    split_ifs with h1 h2
    · exact hrspstar n
    · exact hrspo1 n
    · exact hrspgd0 n
  have hqiu2 : qiu2 O q = q.ul := by
    rw [qiu2, qiu1]
    split_ifs with h1 h2
    · exact hust1
    · exact huo1
    · exact hqiu0
  have hqp2 : qp2 O q = q.pl := by
    rw [qp2, qp1]
    split_ifs with h1 h2
    · exact hpstar
    · exact hpo1
    · exact hqp0
  have hrgd : rgd O q = q.rl := by
    rw [rgd]
    calc ∑ n, rspgd2 O q n = ∑ n, q.rl * q.spl n :=
          Finset.sum_congr rfl fun n _ => hrspgd2 n
      _ = q.rl * ∑ n, q.spl n := by rw [Finset.mul_sum]
      _ = q.rl := by rw [hsl, mul_one]
  have hqiv1 : qiv1 O q = q.vl := by
    rw [qiv1, qiv1a]
    split_ifs with h1 h2
    · exact absurd (hust1.symm.trans h1) hu
    · rfl
    · exact hvr
  have hqiv2 : qiv2 O q = q.v2l := by
    rw [qiv2, qiv2a]
    split_ifs with h1 h2
    · exact absurd (hust1.symm.trans h1) hu
    · rfl
    · exact hv2r
  have hqiuF : qiuF O q = q.bc * q.ul := by rw [qiuF, hqiu2]
  refine ⟨hne, ?_, ?_, ?_, ?_, ?_, ?_, ?_, ?_, ?_⟩
  · rw [riemann_ustar, hust1]
  · rw [riemann_qint_gdpres, hqp2]
  · rw [riemann_qint_iu, hqiuF]
  · rw [riemann_qint_iv1, hqiv1]
  · rw [riemann_qint_iv2, hqiv2]
  · rw [riemann_uflx_rho, uflx_rho, hrgd, hqiuF]
  · rw [riemann_uflx_u, uflx_u, uflx_rho, hrgd, hqiuF, hqp2]
  · rw [riemann_uflx_v, uflx_v, uflx_rho, hrgd, hqiuF, hqiv1]
  · rw [riemann_uflx_w, uflx_w, uflx_rho, hrgd, hqiuF, hqiv2]

/-- Trace of the riemann routine on a stationary contact: both normal
velocities zero and equal pressures at least wsmall. -/
lemma stationary_contact (hul : q.ul = 0) (hur : q.ur = 0)
    (hpr : q.pr = q.pl) (hP : wsmall α ≤ q.pl) :
    (riemann O q).ustar = 0 ∧ (riemann O q).qint_gdpres = q.pl ∧
    (riemann O q).qint_iu = 0 ∧ (riemann O q).uflx_rho = 0 ∧
    (riemann O q).uflx_eden = 0 := by
  have hden : wl O q + wr O q ≠ 0 := by
    have h1 := wl_pos O q
    have h2 := wr_pos O q
    positivity
  have hustar0 : ustar0 O q = 0 := by
    rw [ustar0, hul, hur, hpr]
    rw [show wl O q * 0 + wr O q * 0 + (q.pl - q.pl) = 0 by ring, zero_div]
  have heng : engaged O q := Or.inr hustar0
  have hust1 : ustar1 O q = 0 := by rw [ustar1, if_pos heng]
  have huo1 : uo1 O q = 0 := by
    rw [uo1, if_pos heng, hul, hur]; ring
  have hpo1 : po1 O q = q.pl := by
    rw [po1, if_pos heng, hpr]; ring
  have hpstar : pstar O q = q.pl := by
    rw [pstar, hul, hur, hpr]
    have h2 :
        ((wr O q * q.pl + wl O q * q.pl) + wl O q * wr O q * (0 - 0)) /
          (wl O q + wr O q) = q.pl := by rw [div_eq_iff hden]; ring
    rw [h2]
    exact max_eq_right hP
  have hqiu0 : qiu0 O q = 0 := by rw [qiu0, hust1, huo1]; ring
  have hqp0 : qp0 O q = q.pl := by rw [qp0, hpstar, hpo1]; ring
  have hqiu2 : qiu2 O q = 0 := by
    rw [qiu2, qiu1]
    split_ifs with h1 h2
    · exact hust1
    · exact huo1
    · exact hqiu0
  have hqp2 : qp2 O q = q.pl := by
    rw [qp2, qp1]
    split_ifs with h1 h2
    · exact hpstar
    · exact hpo1
    · exact hqp0
  have hqiuF : qiuF O q = 0 := by rw [qiuF, hqiu2, mul_zero]
  refine ⟨?_, ?_, ?_, ?_, ?_⟩
  · rw [riemann_ustar, hust1]
  · rw [riemann_qint_gdpres, hqp2]
  · rw [riemann_qint_iu, hqiuF]
  · rw [riemann_uflx_rho, uflx_rho, hqiuF, mul_zero]
  · rw [riemann_uflx_eden, uflx_eden, hqiuF, zero_mul]

/-! ## Mirror lemmas for the symmetry claim -/

lemma mirror_cl : cl O (mirror q) = cr O q := rfl

lemma mirror_cr : cr O (mirror q) = cl O q := rfl

lemma mirror_wl : wl O (mirror q) = wr O q := rfl

lemma mirror_wr : wr O (mirror q) = wl O q := rfl

lemma mirror_ul : (mirror q).ul = -q.ur := rfl

lemma mirror_ur : (mirror q).ur = -q.ul := rfl

lemma mirror_pl : (mirror q).pl = q.pr := rfl

lemma mirror_pr : (mirror q).pr = q.pl := rfl

lemma mirror_pstar : pstar O (mirror q) = pstar O q := by
  simp only [pstar, mirror_wl, mirror_wr, mirror_pl, mirror_pr, mirror_ul,
    mirror_ur]
  rw [add_comm (wl O q) (wr O q)]
  congr 1
  congr 1
  ring

lemma mirror_ustar0 : ustar0 O (mirror q) = -(ustar0 O q) := by
  simp only [ustar0, mirror_wl, mirror_wr, mirror_ul, mirror_ur, mirror_pl,
    mirror_pr]
  rw [add_comm (wl O q) (wr O q), ← neg_div]
  congr 1
  ring

lemma mirror_engaged : engaged O (mirror q) ↔ engaged O q := by
  unfold engaged
  rw [mirror_ustar0, abs_neg, neg_eq_zero]
  simp only [mirror]
  rw [abs_neg, abs_neg, add_comm |q.ur| |q.ul|]

lemma mirror_ustar1 : ustar1 O (mirror q) = -(ustar1 O q) := by
  unfold ustar1
  by_cases h : engaged O q
  · rw [if_pos ((mirror_engaged O q).mpr h), if_pos h, neg_zero]
  · rw [if_neg (fun hc => h ((mirror_engaged O q).mp hc)), if_neg h,
      mirror_ustar0]

lemma mirror_rspo1 (n : Fin S) : rspo1 O (mirror q) n = rspo1 O q n := by
  unfold rspo1
  by_cases h : engaged O q
  · rw [if_pos ((mirror_engaged O q).mpr h), if_pos h]
    simp only [mirror]
    ring
  · rw [if_neg (fun hc => h ((mirror_engaged O q).mp hc)), if_neg h]
    unfold rspo0
    rcases (not_engaged_ne O q h).lt_or_lt with hlt | hgt
    · rw [if_pos (by rw [mirror_ustar0]; linarith),
        if_neg (not_lt.mpr hlt.le)]
      simp only [mirror]
    · rw [if_neg (by rw [mirror_ustar0]; intro hc; linarith), if_pos hgt]
      simp only [mirror]

lemma mirror_uo1 : uo1 O (mirror q) = -(uo1 O q) := by
  unfold uo1
  by_cases h : engaged O q
  · rw [if_pos ((mirror_engaged O q).mpr h), if_pos h]
    simp only [mirror]
    ring
  · rw [if_neg (fun hc => h ((mirror_engaged O q).mp hc)), if_neg h]
    unfold uo0
    rcases (not_engaged_ne O q h).lt_or_lt with hlt | hgt
    · rw [if_pos (by rw [mirror_ustar0]; linarith),
        if_neg (not_lt.mpr hlt.le)]
      simp only [mirror]
    · rw [if_neg (by rw [mirror_ustar0]; intro hc; linarith), if_pos hgt]
      simp only [mirror]

lemma mirror_po1 : po1 O (mirror q) = po1 O q := by
  unfold po1
  by_cases h : engaged O q
  · rw [if_pos ((mirror_engaged O q).mpr h), if_pos h]
    simp only [mirror]
    ring
  · rw [if_neg (fun hc => h ((mirror_engaged O q).mp hc)), if_neg h]
    unfold po0
    rcases (not_engaged_ne O q h).lt_or_lt with hlt | hgt
    · rw [if_pos (by rw [mirror_ustar0]; linarith),
        if_neg (not_lt.mpr hlt.le)]
      simp only [mirror]
    · rw [if_neg (by rw [mirror_ustar0]; intro hc; linarith), if_pos hgt]
      simp only [mirror]

lemma mirror_ro : ro O (mirror q) = ro O q := by
  unfold ro
  exact Finset.sum_congr rfl fun n _ => mirror_rspo1 O q n

lemma mirror_Yo : Yo O (mirror q) = Yo O q := by
  funext n
  unfold Yo
  rw [mirror_rspo1, mirror_ro]

lemma mirror_co : co O (mirror q) = co O q := by
  unfold co
  rw [mirror_ro, mirror_po1, mirror_Yo]

lemma mirror_drho : drho O (mirror q) = drho O q := by
  unfold drho
  rw [mirror_pstar, mirror_po1, mirror_co]

lemma mirror_rspstar (n : Fin S) :
    rspstar O (mirror q) n = rspstar O q n := by
  unfold rspstar
  rw [mirror_rspo1, mirror_drho, mirror_ro]

lemma mirror_rstar : rstar O (mirror q) = rstar O q := by
  unfold rstar
  exact Finset.sum_congr rfl fun n _ => mirror_rspstar O q n

lemma mirror_Ystar : Ystar O (mirror q) = Ystar O q := by
  funext n
  unfold Ystar
  rw [mirror_rspstar, mirror_rstar]

lemma mirror_cstar : cstar O (mirror q) = cstar O q := by
  unfold cstar
  rw [mirror_rstar, mirror_pstar, mirror_Ystar]

lemma mirror_sgnm (hne : ¬ engaged O q) :
    sgnm O (mirror q) = -(sgnm O q) := by
  have h1 : ustar1 O q = ustar0 O q := ustar1_of_not_engaged O q hne
  have h2 : ustar1 O (mirror q) = -(ustar0 O q) := by
    rw [mirror_ustar1, h1]
  unfold sgnm
  rcases (not_engaged_ne O q hne).lt_or_lt with hlt | hgt
  · rw [if_neg (show ¬ ustar1 O (mirror q) < 0 by rw [h2]; intro hc; linarith),
      if_pos (show ustar1 O q < 0 by rw [h1]; exact hlt)]
    norm_num
  · rw [if_pos (show ustar1 O (mirror q) < 0 by rw [h2]; linarith),
      if_neg (show ¬ ustar1 O q < 0 by rw [h1]; exact not_lt.mpr hgt.le)]

lemma mirror_spout0 (hne : ¬ engaged O q) :
    spout0 O (mirror q) = spout0 O q := by
  unfold spout0
  rw [mirror_co, mirror_sgnm O q hne, mirror_uo1]
  ring

lemma mirror_spin0 (hne : ¬ engaged O q) :
    spin0 O (mirror q) = spin0 O q := by
  unfold spin0
  rw [mirror_cstar, mirror_sgnm O q hne, mirror_ustar1]
  ring

lemma mirror_ushock (hne : ¬ engaged O q) :
    ushock O (mirror q) = ushock O q := by
  unfold ushock
  rw [mirror_spin0 O q hne, mirror_spout0 O q hne]

lemma mirror_rare : rare O (mirror q) ↔ rare O q := by
  unfold rare
  rw [mirror_pstar, mirror_po1]

lemma mirror_spoutA (hne : ¬ engaged O q) :
    spoutA O (mirror q) = spoutA O q := by
  unfold spoutA
  by_cases h : rare O q
  · rw [if_pos ((mirror_rare O q).mpr h), if_pos h, mirror_spout0 O q hne]
  · rw [if_neg (fun hc => h ((mirror_rare O q).mp hc)), if_neg h,
      mirror_ushock O q hne]

lemma mirror_spinA (hne : ¬ engaged O q) :
    spinA O (mirror q) = spinA O q := by
  unfold spinA
  by_cases h : rare O q
  · rw [if_pos ((mirror_rare O q).mpr h), if_pos h, mirror_spin0 O q hne]
  · rw [if_neg (fun hc => h ((mirror_rare O q).mp hc)), if_neg h,
      mirror_ushock O q hne]

lemma mirror_scr (hne : ¬ engaged O q) : scr O (mirror q) = scr O q := by
  unfold scr
  rw [mirror_spoutA O q hne, mirror_spinA O q hne]
  simp only [mirror]

lemma mirror_frac (hne : ¬ engaged O q) : frac O (mirror q) = frac O q := by
  unfold frac
  rw [mirror_spoutA O q hne, mirror_spinA O q hne, mirror_scr O q hne]

lemma mirror_qiv1 (hne : ¬ engaged O q) : qiv1 O (mirror q) = qiv1 O q := by
  have h1 : ustar1 O q = ustar0 O q := ustar1_of_not_engaged O q hne
  have h2 : ustar1 O (mirror q) = -(ustar0 O q) := by rw [mirror_ustar1, h1]
  have hz := not_engaged_ne O q hne
  have hm0 : ¬ ustar1 O (mirror q) = 0 := by
    rw [h2]; intro hc; exact hz (by linarith)
  have hq0 : ¬ ustar1 O q = 0 := by rw [h1]; exact hz
  unfold qiv1 qiv1a
  rw [if_neg hm0, if_neg hq0]
  rcases hz.lt_or_lt with hlt | hgt
  · rw [if_pos (show 0 < ustar1 O (mirror q) by rw [h2]; linarith),
      if_neg (show ¬ 0 < ustar1 O q by rw [h1]; exact not_lt.mpr hlt.le)]
    rfl
  · rw [if_neg (show ¬ 0 < ustar1 O (mirror q) by rw [h2]; intro hc; linarith),
      if_pos (show 0 < ustar1 O q by rw [h1]; exact hgt)]
    rfl

lemma mirror_qiv2 (hne : ¬ engaged O q) : qiv2 O (mirror q) = qiv2 O q := by
  have h1 : ustar1 O q = ustar0 O q := ustar1_of_not_engaged O q hne
  have h2 : ustar1 O (mirror q) = -(ustar0 O q) := by rw [mirror_ustar1, h1]
  have hz := not_engaged_ne O q hne
  have hm0 : ¬ ustar1 O (mirror q) = 0 := by
    rw [h2]; intro hc; exact hz (by linarith)
  have hq0 : ¬ ustar1 O q = 0 := by rw [h1]; exact hz
  unfold qiv2 qiv2a
  rw [if_neg hm0, if_neg hq0]
  rcases hz.lt_or_lt with hlt | hgt
  · rw [if_pos (show 0 < ustar1 O (mirror q) by rw [h2]; linarith),
      if_neg (show ¬ 0 < ustar1 O q by rw [h1]; exact not_lt.mpr hlt.le)]
    rfl
  · rw [if_neg (show ¬ 0 < ustar1 O (mirror q) by rw [h2]; intro hc; linarith),
      if_pos (show 0 < ustar1 O q by rw [h1]; exact hgt)]
    rfl

lemma mirror_rspgd0 (hne : ¬ engaged O q) (n : Fin S) :
    rspgd0 O (mirror q) n = rspgd0 O q n := by
  unfold rspgd0
  rw [mirror_frac O q hne, mirror_rspstar, mirror_rspo1]

lemma mirror_qiu0 (hne : ¬ engaged O q) : qiu0 O (mirror q) = -(qiu0 O q) := by
  unfold qiu0
  rw [mirror_frac O q hne, mirror_ustar1, mirror_uo1]
  ring

lemma mirror_qp0 (hne : ¬ engaged O q) : qp0 O (mirror q) = qp0 O q := by
  unfold qp0
  rw [mirror_frac O q hne, mirror_pstar, mirror_po1]

lemma mirror_mOut (hne : ¬ engaged O q) : mOut O (mirror q) ↔ mOut O q := by
  unfold mOut
  rw [mirror_spoutA O q hne]

lemma mirror_mIn (hne : ¬ engaged O q) : mIn O (mirror q) ↔ mIn O q := by
  unfold mIn
  rw [mirror_spinA O q hne]

lemma mirror_rspgd2 (hne : ¬ engaged O q) (n : Fin S) :
    rspgd2 O (mirror q) n = rspgd2 O q n := by
  unfold rspgd2 rspgd1
  by_cases h2 : mIn O q
  · rw [if_pos ((mirror_mIn O q hne).mpr h2), if_pos h2, mirror_rspstar]
  · rw [if_neg (fun hc => h2 ((mirror_mIn O q hne).mp hc)), if_neg h2]
    by_cases h1 : mOut O q
    · rw [if_pos ((mirror_mOut O q hne).mpr h1), if_pos h1, mirror_rspo1]
    · rw [if_neg (fun hc => h1 ((mirror_mOut O q hne).mp hc)), if_neg h1,
        mirror_rspgd0 O q hne]

lemma mirror_qiu2 (hne : ¬ engaged O q) : qiu2 O (mirror q) = -(qiu2 O q) := by
  unfold qiu2 qiu1
  by_cases h2 : mIn O q
  · rw [if_pos ((mirror_mIn O q hne).mpr h2), if_pos h2, mirror_ustar1]
  · rw [if_neg (fun hc => h2 ((mirror_mIn O q hne).mp hc)), if_neg h2]
    by_cases h1 : mOut O q
    · rw [if_pos ((mirror_mOut O q hne).mpr h1), if_pos h1, mirror_uo1]
    · rw [if_neg (fun hc => h1 ((mirror_mOut O q hne).mp hc)), if_neg h1,
        mirror_qiu0 O q hne]

lemma mirror_qp2 (hne : ¬ engaged O q) : qp2 O (mirror q) = qp2 O q := by
  unfold qp2 qp1
  by_cases h2 : mIn O q
  · rw [if_pos ((mirror_mIn O q hne).mpr h2), if_pos h2, mirror_pstar]
  · rw [if_neg (fun hc => h2 ((mirror_mIn O q hne).mp hc)), if_neg h2]
    by_cases h1 : mOut O q
    · rw [if_pos ((mirror_mOut O q hne).mpr h1), if_pos h1, mirror_po1]
    · rw [if_neg (fun hc => h1 ((mirror_mOut O q hne).mp hc)), if_neg h1,
        mirror_qp0 O q hne]

lemma mirror_rgd (hne : ¬ engaged O q) : rgd O (mirror q) = rgd O q := by
  unfold rgd
  exact Finset.sum_congr rfl fun n _ => mirror_rspgd2 O q hne n

lemma mirror_qiuF (hne : ¬ engaged O q) : qiuF O (mirror q) = -(qiuF O q) := by
  unfold qiuF
  rw [mirror_qiu2 O q hne]
  simp only [mirror]
  ring

/-! ## Array write lemmas -/

lemma writeAt_self (a : ℤ → α) (o : ℤ) (v : α) : writeAt a o v o = v :=
  if_pos rfl

lemma writeAt_ne (a : ℤ → α) (o : ℤ) (v : α) (m : ℤ) (h : m ≠ o) :
    writeAt a o v m = a m := if_neg h

lemma off_ne (s : Strided) (hns : s.nstride ≠ 0) (i j k : ℤ) {a b : ℤ}
    (h : a ≠ b) : s.off i j k a ≠ s.off i j k b := by
  unfold Strided.off
  intro hc
  apply h
  have h2 : a * s.nstride = b * s.nstride := by linarith
  exact mul_right_cancel₀ hns h2

lemma foldl_writeAt_notMem {β : Type} (f : β → ℤ) (g : β → α) (o : ℤ) :
    ∀ (l : List β) (a : ℤ → α), (∀ b ∈ l, f b ≠ o) →
      (l.foldl (fun acc b => writeAt acc (f b) (g b)) a) o = a o := by
  intro l
  induction l with
  | nil => intro a _; rfl
  | cons hd tl ih =>
      intro a h
      rw [List.foldl_cons, ih _ fun b hb => h b (List.mem_cons_of_mem hd hb)]
      exact writeAt_ne _ _ _ _ (Ne.symm (h hd (List.mem_cons_self hd tl)))

lemma foldl_writeAt_mem {β : Type} (f : β → ℤ) (g : β → α) (b : β) :
    ∀ (l : List β) (a : ℤ → α), b ∈ l → (∀ c ∈ l, f c = f b → c = b) →
      (l.foldl (fun acc c => writeAt acc (f c) (g c)) a) (f b) = g b := by
  intro l
  induction l with
  | nil => intro a hb _; exact absurd hb (List.not_mem_nil b)
  | cons hd tl ih =>
      intro a hb huniq
      rw [List.foldl_cons]
      by_cases hmem : b ∈ tl
      · exact ih _ hmem fun c hc => huniq c (List.mem_cons_of_mem hd hc)
      · have hbhd : b = hd := by
          rcases List.mem_cons.mp hb with h | h
          · exact h
          · exact absurd h hmem
        rw [foldl_writeAt_notMem f g (f b) tl _ ?_]
        · rw [hbhd]
          exact writeAt_self _ _ _
        · intro c hc hfc
          have hcb := huniq c (List.mem_cons_of_mem hd hc) hfc
          rw [hcb] at hc
          exact absurd hc hmem

lemma nat_sub_div_mul (a b : ℕ) : a - a / b * b = a % b := by
  have h := Nat.div_add_mod a b
  have h2 : a / b * b = b * (a / b) := Nat.mul_comm _ _
  omega

/-! ## Admissibility of the concrete inputs -/

lemma adm_qU : Adm qU := by
  unfold Adm qU oneY
  norm_num [Fin.sum_univ_one]

lemma adm_qN : Adm qN := by
  unfold Adm qN oneY
  norm_num [Fin.sum_univ_one]

lemma adm_qS : Adm qS := by
  unfold Adm qS oneY
  norm_num [Fin.sum_univ_one]

lemma adm_qX2 : Adm qX2 := by
  unfold Adm qX2 oneY
  norm_num [Fin.sum_univ_one]

lemma adm_qX5 : Adm qX5 := by
  unfold Adm qX5 oneY
  norm_num [Fin.sum_univ_one]

lemma adm_mirror_qU : Adm (mirror qU) := by
  unfold Adm mirror qU oneY
  norm_num [Fin.sum_univ_one]

/-! ## Claim theorems -/

/-- Claim C7: both acoustic impedances are the floored values
max(wsmall, c rho), wsmall is strictly positive, both impedances are at
least wsmall, and the wave strength denominator wl + wr is strictly
positive and in particular nonzero, so the star pressure and star velocity
divisions never divide by zero. -/
theorem claim_C7_impedance_floor (O : Oracle α S) (q : RiemannInput α S) :
    wl O q = max (wsmall α) (cl O q * q.rl) ∧
    wr O q = max (wsmall α) (cr O q * q.rr) ∧
    (0 : α) < wsmall α ∧ wsmall α ≤ wl O q ∧ wsmall α ≤ wr O q ∧
    0 < wl O q + wr O q ∧ wl O q + wr O q ≠ 0 := by
  have h1 := wl_pos O q
  have h2 := wr_pos O q
  refine ⟨rfl, rfl, wsmall_pos, le_max_left _ _, le_max_left _ _, ?_, ?_⟩
  · linarith
  · positivity

/-- Claim C4: the star state species partial density is exactly the clamp
max(0, rspo + drho * Yo) with Yo = rspo / ro and
drho = (pstar - po) / co squared; it is always nonnegative, and whenever
drho * Yo drops below -rspo the clamp yields exactly zero. -/
theorem claim_C4_species_clamp (O : Oracle α S) (q : RiemannInput α S)
    (n : Fin S) :
    rspstar O q n =
      max 0 (rspo1 O q n + drho O q * (rspo1 O q n / ro O q)) ∧
    drho O q = (pstar O q - po1 O q) / (co O q * co O q) ∧
    0 ≤ rspstar O q n ∧
    (drho O q * (rspo1 O q n / ro O q) < -(rspo1 O q n) →
      rspstar O q n = 0) := by
  refine ⟨rfl, rfl, ?_, fun h => ?_⟩
  · rw [rspstar]
    exact le_max_left _ _
  · rw [rspstar]
    exact max_eq_left (by linarith)

/-- Claim C4 witness: a strong expansion with sound speed one half drives
drho * Yo below -rspo and the computed star partial density is zero. -/
theorem claim_C4_witness :
    drho oH qc4 * (rspo1 oH qc4 0 / ro oH qc4) < -(rspo1 oH qc4 0) ∧
    rspstar oH qc4 0 = 0 := by
  have hwl : wl oH qc4 = 1 / 2 := by
    rw [wl, show cl oH qc4 * qc4.rl = 1 / 2 from by norm_num [cl, oH, qc4]]
    exact max_eq_right (by rw [wsmall]; norm_num)
  have hwr : wr oH qc4 = 1 / 2 := by
    rw [wr, show cr oH qc4 * qc4.rr = 1 / 2 from by norm_num [cr, oH, qc4]]
    exact max_eq_right (by rw [wsmall]; norm_num)
  have hustar0 : ustar0 oH qc4 = 0 := by
    rw [ustar0, hwl, hwr]
    norm_num [qc4]
  have heng : engaged oH qc4 := Or.inr hustar0
  have hrspo1 : rspo1 oH qc4 0 = 1 := by
    rw [rspo1, if_pos heng]
    norm_num [qc4, oneY]
  have hro : ro oH qc4 = 1 := by
    rw [ro, Fin.sum_univ_one, hrspo1]
  have hpo1 : po1 oH qc4 = 1 := by
    rw [po1, if_pos heng]
    norm_num [qc4]
  have hpstar : pstar oH qc4 = wsmall ℚ := by
    rw [pstar, hwl, hwr,
      show ((1 / 2 * qc4.pl + 1 / 2 * qc4.pr) +
          1 / 2 * (1 / 2) * (qc4.ul - qc4.ur)) / ((1 : ℚ) / 2 + 1 / 2) = -4
        from by norm_num [qc4]]
    exact max_eq_left (by rw [wsmall]; norm_num)
  have hco : co oH qc4 = 1 / 2 := rfl
  have hyp : drho oH qc4 * (rspo1 oH qc4 0 / ro oH qc4) <
      -(rspo1 oH qc4 0) := by
    rw [drho, hpstar, hpo1, hco, hrspo1, hro, wsmall]
    norm_num
  exact ⟨hyp, (claim_C4_species_clamp oH qc4 0).2.2.2 hyp⟩

/-- Claim C2 (amended: the common positive pressure must also be at least
wsmall, the smallest positive normal double, since the star pressure is
floored at wsmall): on identical admissible left and right states with
nonzero normal velocity and bc sign one, the riemann routine returns
ustar = ul, interface pressure pl, mass flux rl * ul, and the interface
normal velocity, transverse velocities and pressure equal the common
state. -/
theorem claim_C2_trivial_state (O : Oracle α S) (q : RiemannInput α S)
    (hrr : q.rr = q.rl) (hur : q.ur = q.ul) (hvr : q.vr = q.vl)
    (hv2r : q.v2r = q.v2l) (hpr : q.pr = q.pl) (hspr : q.spr = q.spl)
    (hu : q.ul ≠ 0) (hbc : q.bc = 1) (hadm : Adm q)
    (hP : wsmall α ≤ q.pl) :
    (riemann O q).ustar = q.ul ∧ (riemann O q).qint_gdpres = q.pl ∧
    (riemann O q).uflx_rho = q.rl * q.ul ∧
    (riemann O q).qint_iu = q.ul ∧ (riemann O q).qint_iv1 = q.vl ∧
    (riemann O q).qint_iv2 = q.v2l := by
  obtain ⟨-, h1, h2, h3, h4, h5, h6, -, -, -⟩ :=
    trivial_state O q hrr hur hvr hv2r hpr hspr hu hadm hP
  rw [hbc, one_mul] at h3 h6
  exact ⟨h1, h2, h6, h3, h4, h5⟩

/-- Claim C2 witness: uniform flow (1, 500, 0, 0, 10 to the 6, 1) on both
sides. -/
theorem claim_C2_witness :
    qU.rr = qU.rl ∧ qU.ur = qU.ul ∧ qU.vr = qU.vl ∧ qU.v2r = qU.v2l ∧
    qU.pr = qU.pl ∧ qU.spr = qU.spl ∧ qU.ul ≠ 0 ∧ qU.bc = 1 ∧ Adm qU ∧
    wsmall ℚ ≤ qU.pl ∧
    ((riemann oC qU).ustar = qU.ul ∧
      (riemann oC qU).qint_gdpres = qU.pl ∧
      (riemann oC qU).uflx_rho = qU.rl * qU.ul ∧
      (riemann oC qU).qint_iu = qU.ul ∧
      (riemann oC qU).qint_iv1 = qU.vl ∧
      (riemann oC qU).qint_iv2 = qU.v2l) := by
  have hu : qU.ul ≠ 0 := by norm_num [qU]
  have hP : wsmall ℚ ≤ qU.pl := by rw [wsmall]; norm_num [qU]
  exact ⟨rfl, rfl, rfl, rfl, rfl, rfl, hu, rfl, adm_qU, hP,
    claim_C2_trivial_state oC qU rfl rfl rfl rfl rfl rfl hu rfl adm_qU hP⟩

/-- Claim C2 counterexample: identical admissible states with positive
common pressure 2 to the power -1023, which is below wsmall; the returned
interface pressure is the wsmall floor, not the common pressure, so the
claim fails for merely positive pressures. -/
theorem claim_C2_counterexample :
    Adm qX2 ∧ qX2.rr = qX2.rl ∧ qX2.ur = qX2.ul ∧ qX2.vr = qX2.vl ∧
    qX2.v2r = qX2.v2l ∧ qX2.pr = qX2.pl ∧ qX2.spr = qX2.spl ∧
    qX2.ul ≠ 0 ∧ qX2.bc = 1 ∧ 0 < qX2.pl ∧
    (riemann oC qX2).qint_gdpres ≠ qX2.pl := by
  have hwl : wl oC qX2 = 1 := by
    rw [wl, show cl oC qX2 * qX2.rl = 1 from by norm_num [cl, oC, qX2]]
    exact max_eq_right (by rw [wsmall]; norm_num)
  have hwr : wr oC qX2 = 1 := by
    rw [wr, show cr oC qX2 * qX2.rr = 1 from by norm_num [cr, oC, qX2]]
    exact max_eq_right (by rw [wsmall]; norm_num)
  have hustar0 : ustar0 oC qX2 = 1 / 2 := by
    rw [ustar0, hwl, hwr]
    norm_num [qX2]
  have habs : |(1 : ℚ) / 2| = 1 / 2 := abs_of_pos (by norm_num)
  have hne : ¬ engaged oC qX2 := by
    rintro (h | h)
    · rw [hustar0] at h
      norm_num [smallu, qX2, habs] at h
    · rw [hustar0] at h
      norm_num at h
  have hust1 : ustar1 oC qX2 = 1 / 2 := by
    rw [ustar1_of_not_engaged _ _ hne, hustar0]
  have huo1 : uo1 oC qX2 = 1 / 2 := by
    rw [uo1, if_neg hne, uo0, if_pos (by rw [hustar0]; norm_num)]
    norm_num [qX2]
  have hpo1 : po1 oC qX2 = 1 / 2 ^ 1023 := by
    rw [po1, if_neg hne, po0, if_pos (by rw [hustar0]; norm_num)]
    norm_num [qX2]
  have hsg : sgnm oC qX2 = 1 := by
    rw [sgnm, if_neg (by rw [hust1]; norm_num)]
  have hspout0 : spout0 oC qX2 = 1 / 2 := by
    rw [spout0, show co oC qX2 = 1 from rfl, hsg, huo1]
    norm_num
  have hspin0 : spin0 oC qX2 = 1 / 2 := by
    rw [spin0, show cstar oC qX2 = 1 from rfl, hsg, hust1]
    norm_num
  have hush : ushock oC qX2 = 1 / 2 := by
    rw [ushock, hspin0, hspout0]
    norm_num
  have hpstar : pstar oC qX2 = wsmall ℚ := by
    rw [pstar, hwl, hwr,
      show ((1 * qX2.pl + 1 * qX2.pr) + 1 * 1 * (qX2.ul - qX2.ur)) /
          ((1 : ℚ) + 1) = 1 / 2 ^ 1023 from by norm_num [qX2]]
    exact max_eq_left (by rw [wsmall]; norm_num)
  have hrare : ¬ rare oC qX2 := by
    unfold rare
    rw [hpstar, hpo1, wsmall]
    norm_num
  have hspinA : spinA oC qX2 = 1 / 2 := by
    rw [spinA, if_neg hrare, hush]
  have hmIn : mIn oC qX2 := by
    unfold mIn
    rw [hspinA]
    norm_num
  have hqp2 : qp2 oC qX2 = wsmall ℚ := by
    rw [qp2, if_pos hmIn, hpstar]
  refine ⟨adm_qX2, rfl, rfl, rfl, rfl, rfl, rfl, by norm_num [qX2], rfl,
    by norm_num [qX2], ?_⟩
  rw [riemann_qint_gdpres, hqp2, wsmall]
  norm_num [qX2]

/-- Claim C3 (amended): for identical admissible left and right states with
normal velocity 1e-20 on both sides, pressure at least wsmall and bc sign
one, the sonic filter does NOT engage, because the threshold is
half of smallu times the velocity magnitudes, about 1e-32, which is below
1e-20; the returned interface normal velocity is exactly 1e-20, not zero. -/
theorem claim_C3_sonic_filter (O : Oracle α S) (q : RiemannInput α S)
    (hrr : q.rr = q.rl) (hur : q.ur = q.ul) (hvr : q.vr = q.vl)
    (hv2r : q.v2r = q.v2l) (hpr : q.pr = q.pl) (hspr : q.spr = q.spl)
    (hu20 : q.ul = 1 / 10 ^ 20) (hbc : q.bc = 1) (hadm : Adm q)
    (hP : wsmall α ≤ q.pl) :
    ¬ engaged O q ∧ (riemann O q).qint_iu = 1 / 10 ^ 20 := by
  have hu : q.ul ≠ 0 := by rw [hu20]; norm_num
  obtain ⟨hne, -, -, hiu, -, -, -, -, -, -⟩ :=
    trivial_state O q hrr hur hvr hv2r hpr hspr hu hadm hP
  rw [hbc, one_mul, hu20] at hiu
  exact ⟨hne, hiu⟩

/-- Claim C3 witness: identical states at (1, 1e-20, 0, 0, 1, 1). -/
theorem claim_C3_witness :
    qN.rr = qN.rl ∧ qN.ur = qN.ul ∧ qN.vr = qN.vl ∧ qN.v2r = qN.v2l ∧
    qN.pr = qN.pl ∧ qN.spr = qN.spl ∧ qN.ul = 1 / 10 ^ 20 ∧ qN.bc = 1 ∧
    Adm qN ∧ wsmall ℚ ≤ qN.pl ∧
    (¬ engaged oC qN ∧ (riemann oC qN).qint_iu = 1 / 10 ^ 20) := by
  have hP : wsmall ℚ ≤ qN.pl := by rw [wsmall]; norm_num [qN]
  exact ⟨rfl, rfl, rfl, rfl, rfl, rfl, rfl, rfl, adm_qN, hP,
    claim_C3_sonic_filter oC qN rfl rfl rfl rfl rfl rfl rfl rfl adm_qN hP⟩

/-- Claim C3 counterexample: an admissible input with both normal
velocities equal to 1e-20 on which the returned interface normal velocity
is not zero, refuting the claimed exact zero. -/
theorem claim_C3_counterexample :
    Adm qN ∧ qN.ul = 1 / 10 ^ 20 ∧ qN.ur = 1 / 10 ^ 20 ∧ qN.bc = 1 ∧
    (riemann oC qN).qint_iu ≠ 0 := by
  obtain ⟨-, -, -, hiu, -, -, -, -, -, -⟩ :=
    trivial_state oC qN rfl rfl rfl rfl rfl rfl (by norm_num [qN]) adm_qN
      (by rw [wsmall]; norm_num [qN])
  refine ⟨adm_qN, rfl, rfl, rfl, ?_⟩
  rw [hiu]
  norm_num [qN]

/-- Claim C5 (amended: the common positive pressure must also be at least
wsmall): a stationary contact with both normal velocities zero, equal
pressures and equal transverse velocities gives ustar zero, zero mass flux,
zero total energy flux, and interface pressure equal to the common
pressure. -/
theorem claim_C5_stationary_contact (O : Oracle α S) (q : RiemannInput α S)
    (hul : q.ul = 0) (hur : q.ur = 0) (hpr : q.pr = q.pl)
    (hvr : q.vr = q.vl) (hv2r : q.v2r = q.v2l) (hbc : q.bc = 1)
    (hadm : Adm q) (hP : wsmall α ≤ q.pl) :
    (riemann O q).ustar = 0 ∧ (riemann O q).uflx_rho = 0 ∧
    (riemann O q).uflx_eden = 0 ∧ (riemann O q).qint_gdpres = q.pl := by
  obtain ⟨h1, h2, -, h4, h5⟩ := stationary_contact O q hul hur hpr hP
  exact ⟨h1, h4, h5, h2⟩

/-- Claim C5 witness: L = (1, 0, 0, 0, 10 to the 6, 1),
R = (2, 0, 0, 0, 10 to the 6, 1). -/
theorem claim_C5_witness :
    qS.ul = 0 ∧ qS.ur = 0 ∧ qS.pr = qS.pl ∧ qS.vr = qS.vl ∧
    qS.v2r = qS.v2l ∧ qS.bc = 1 ∧ Adm qS ∧ wsmall ℚ ≤ qS.pl ∧
    ((riemann oC qS).ustar = 0 ∧ (riemann oC qS).uflx_rho = 0 ∧
      (riemann oC qS).uflx_eden = 0 ∧
      (riemann oC qS).qint_gdpres = qS.pl) := by
  have hP : wsmall ℚ ≤ qS.pl := by rw [wsmall]; norm_num [qS]
  exact ⟨rfl, rfl, rfl, rfl, rfl, rfl, adm_qS, hP,
    claim_C5_stationary_contact oC qS rfl rfl rfl rfl rfl rfl adm_qS hP⟩

/-- Claim C5 counterexample: a stationary contact whose common positive
pressure 2 to the power -1023 lies below wsmall; ustar and the fluxes
vanish but the interface pressure is the wsmall floor, not the common
pressure. -/
theorem claim_C5_counterexample :
    Adm qX5 ∧ qX5.ul = 0 ∧ qX5.ur = 0 ∧ qX5.pr = qX5.pl ∧
    qX5.vr = qX5.vl ∧ qX5.v2r = qX5.v2l ∧ qX5.bc = 1 ∧ 0 < qX5.pl ∧
    (riemann oC qX5).qint_gdpres ≠ qX5.pl := by
  have hwl : wl oC qX5 = 1 := by
    rw [wl, show cl oC qX5 * qX5.rl = 1 from by norm_num [cl, oC, qX5]]
    exact max_eq_right (by rw [wsmall]; norm_num)
  have hwr : wr oC qX5 = 2 := by
    rw [wr, show cr oC qX5 * qX5.rr = 2 from by norm_num [cr, oC, qX5]]
    exact max_eq_right (by rw [wsmall]; norm_num)
  have hustar0 : ustar0 oC qX5 = 0 := by
    rw [ustar0, hwl, hwr]
    norm_num [qX5]
  have heng : engaged oC qX5 := Or.inr hustar0
  have hust1 : ustar1 oC qX5 = 0 := by rw [ustar1, if_pos heng]
  have huo1 : uo1 oC qX5 = 0 := by
    rw [uo1, if_pos heng]
    norm_num [qX5]
  have hpo1 : po1 oC qX5 = 1 / 2 ^ 1023 := by
    rw [po1, if_pos heng]
    norm_num [qX5]
  have hsg : sgnm oC qX5 = 1 := by
    rw [sgnm, if_neg (by rw [hust1]; norm_num)]
  have hspout0 : spout0 oC qX5 = 1 := by
    rw [spout0, show co oC qX5 = 1 from rfl, hsg, huo1]
    norm_num
  have hspin0 : spin0 oC qX5 = 1 := by
    rw [spin0, show cstar oC qX5 = 1 from rfl, hsg, hust1]
    norm_num
  have hush : ushock oC qX5 = 1 := by
    rw [ushock, hspin0, hspout0]
    norm_num
  have hpstar : pstar oC qX5 = wsmall ℚ := by
    rw [pstar, hwl, hwr,
      show ((2 * qX5.pl + 1 * qX5.pr) + 1 * 2 * (qX5.ul - qX5.ur)) /
          ((1 : ℚ) + 2) = 1 / 2 ^ 1023 from by norm_num [qX5]]
    exact max_eq_left (by rw [wsmall]; norm_num)
  have hrare : ¬ rare oC qX5 := by
    unfold rare
    rw [hpstar, hpo1, wsmall]
    norm_num
  have hspinA : spinA oC qX5 = 1 := by
    rw [spinA, if_neg hrare, hush]
  have hmIn : mIn oC qX5 := by
    unfold mIn
    rw [hspinA]
    norm_num
  have hqp2 : qp2 oC qX5 = wsmall ℚ := by
    rw [qp2, if_pos hmIn, hpstar]
  refine ⟨adm_qX5, rfl, rfl, rfl, rfl, rfl, rfl, by norm_num [qX5], ?_⟩
  rw [riemann_qint_gdpres, hqp2, wsmall]
  norm_num [qX5]

/-- Claim C6 (amended in two ways the counterexample and the sonic filter
force: the u star component of the normal momentum flux is PRESERVED, not
negated, since it is the even quantity rho u squared; and the statement
requires the sonic filter not to engage, because the filter collapses
ustar to a positive zero on both runs and copysign then breaks the mirror
antisymmetry): swapping left and right and negating the normal velocities
negates the mass flux and both tangential momentum fluxes and preserves
the interface pressure and the quantity uflx u minus the interface
pressure. -/
theorem claim_C6_mirror_symmetry (O : Oracle α S) (q : RiemannInput α S)
    (hadm : Adm q) (hbc : q.bc = 1) (hne : ¬ engaged O q) :
    (riemann O (mirror q)).uflx_rho = -((riemann O q).uflx_rho) ∧
    (riemann O (mirror q)).qint_gdpres = (riemann O q).qint_gdpres ∧
    (riemann O (mirror q)).uflx_u - (riemann O (mirror q)).qint_gdpres
      = (riemann O q).uflx_u - (riemann O q).qint_gdpres ∧
    (riemann O (mirror q)).uflx_v = -((riemann O q).uflx_v) ∧
    (riemann O (mirror q)).uflx_w = -((riemann O q).uflx_w) := by
  refine ⟨?_, ?_, ?_, ?_, ?_⟩
  · simp only [riemann_uflx_rho, uflx_rho]
    rw [mirror_rgd O q hne, mirror_qiuF O q hne]
    ring
  · simp only [riemann_qint_gdpres]
    exact mirror_qp2 O q hne
  · simp only [riemann_uflx_u, riemann_qint_gdpres, uflx_u, uflx_rho]
    rw [mirror_rgd O q hne, mirror_qiuF O q hne, mirror_qp2 O q hne]
    ring
  · simp only [riemann_uflx_v, uflx_v, uflx_rho]
    rw [mirror_rgd O q hne, mirror_qiuF O q hne, mirror_qiv1 O q hne]
    ring
  · simp only [riemann_uflx_w, uflx_w, uflx_rho]
    rw [mirror_rgd O q hne, mirror_qiuF O q hne, mirror_qiv2 O q hne]
    ring

/-- Claim C6 counterexample: uniform flow at speed 500; the mirrored run
negates the mass flux but the u star component of the normal momentum flux
is 250000 on both runs, so it is not negated and the claim as stated is
false. -/
theorem claim_C6_counterexample :
    Adm qU ∧ qU.bc = 1 ∧
    ¬((riemann oC (mirror qU)).uflx_rho = -((riemann oC qU).uflx_rho) ∧
      (riemann oC (mirror qU)).qint_gdpres =
        (riemann oC qU).qint_gdpres ∧
      (riemann oC (mirror qU)).uflx_u -
          (riemann oC (mirror qU)).qint_gdpres
        = -((riemann oC qU).uflx_u - (riemann oC qU).qint_gdpres) ∧
      (riemann oC (mirror qU)).uflx_v = -((riemann oC qU).uflx_v) ∧
      (riemann oC (mirror qU)).uflx_w = -((riemann oC qU).uflx_w)) := by
  obtain ⟨-, -, hgd, -, -, -, -, hu7, -, -⟩ :=
    trivial_state oC qU rfl rfl rfl rfl rfl rfl (by norm_num [qU]) adm_qU
      (by rw [wsmall]; norm_num [qU])
  obtain ⟨-, -, hgd2, -, -, -, -, hu72, -, -⟩ :=
    trivial_state oC (mirror qU) rfl rfl rfl rfl rfl rfl
      (by norm_num [mirror, qU]) adm_mirror_qU
      (by rw [wsmall]; norm_num [mirror, qU])
  refine ⟨adm_qU, rfl, fun hc => ?_⟩
  obtain ⟨-, -, h3, -, -⟩ := hc
  rw [hu7, hu72, hgd, hgd2] at h3
  norm_num [mirror, qU] at h3

/-- Claim C6 witness: uniform flow at speed 500, on which the sonic filter
does not engage. -/
theorem claim_C6_witness :
    Adm qU ∧ qU.bc = 1 ∧ ¬ engaged oC qU ∧
    ((riemann oC (mirror qU)).uflx_rho = -((riemann oC qU).uflx_rho) ∧
      (riemann oC (mirror qU)).qint_gdpres =
        (riemann oC qU).qint_gdpres ∧
      (riemann oC (mirror qU)).uflx_u -
          (riemann oC (mirror qU)).qint_gdpres
        = (riemann oC qU).uflx_u - (riemann oC qU).qint_gdpres ∧
      (riemann oC (mirror qU)).uflx_v = -((riemann oC qU).uflx_v) ∧
      (riemann oC (mirror qU)).uflx_w = -((riemann oC qU).uflx_w)) := by
  obtain ⟨hne, -, -, -, -, -, -, -, -, -⟩ :=
    trivial_state oC qU rfl rfl rfl rfl rfl rfl (by norm_num [qU]) adm_qU
      (by rw [wsmall]; norm_num [qU])
  exact ⟨adm_qU, rfl, hne, claim_C6_mirror_symmetry oC qU adm_qU rfl hne⟩

/-- Claim C8: the cell decomposition of the launch kernel agrees with the
mod and div form stated by the specification. -/
theorem claim_C8_cell_decomposition (icell ncells lenx leny lenxy : ℕ)
    (lox loy loz : ℤ) (hic : icell < ncells) (hx : 0 < lenx)
    (hy : 0 < leny) (hxy : lenxy = lenx * leny) :
    cellIndex icell lenx lenxy lox loy loz =
      (lox + ((icell % lenx : ℕ) : ℤ),
        loy + (((icell / lenx) % (lenxy / lenx) : ℕ) : ℤ),
        loz + ((icell / lenxy : ℕ) : ℤ)) := by
  subst hxy
  simp only [cellIndex]
  have hk := nat_sub_div_mul icell (lenx * leny)
  rw [hk]
  have hi := nat_sub_div_mul (icell % (lenx * leny)) lenx
  rw [hi]
  have hj : icell % (lenx * leny) / lenx = icell / lenx % leny :=
    Nat.mod_mul_right_div_self icell lenx leny
  have hmm : icell % (lenx * leny) % lenx = icell % lenx :=
    Nat.mod_mod_of_dvd icell (dvd_mul_right lenx leny)
  have hleny : lenx * leny / lenx = leny := Nat.mul_div_cancel_left leny hx
  rw [hj, hmm, hleny]
  simp only [Prod.mk.injEq]
  refine ⟨by omega, by omega, by omega⟩

/-- Claim C8 witness: icell 7 in a 3 by 2 by 4 block with origin
(10, 20, 30). -/
theorem claim_C8_witness :
    7 < 24 ∧ 0 < 3 ∧ 0 < 2 ∧ (6 : ℕ) = 3 * 2 ∧
    cellIndex 7 3 6 10 20 30 =
      (10 + ((7 % 3 : ℕ) : ℤ), 20 + (((7 / 3) % (6 / 3) : ℕ) : ℤ),
        30 + ((7 / 6 : ℕ) : ℤ)) :=
  ⟨by decide, by decide, by decide, by decide,
    claim_C8_cell_decomposition 7 24 3 2 6 10 20 30 (by decide) (by decide)
      (by decide) (by decide)⟩

/-- Claim C10: the pool partition in main advances each base double pointer
by the previous array size times sizeof(double) ELEMENTS, that is eight
times the size in doubles; with size one the qpxy base lies 8 doubles after
qmxy, not 1 double, contradicting the cumulative size partition of the
specification. -/
theorem claim_C10_pool_layout :
    qpxyOff ⟨1, 1, 1, 1, 1, 1, 1, 1⟩ = 8 ∧
    qmxyOff + 1 ≠ qpxyOff ⟨1, 1, 1, 1, 1, 1, 1, 1⟩ ∧
    (∀ s : PoolSizes, qpxyOff s = qmxyOff + s.qmxy * 8 ∧
      flxyOff s = qpxyOff s + s.qpxy * 8 ∧
      qxyOff s = flxyOff s + s.flxy * 8 ∧
      qmxzOff s = qxyOff s + s.qxy * 8 ∧
      qpxzOff s = qmxzOff s + s.qmxz * 8 ∧
      flxzOff s = qpxzOff s + s.qpxz * 8 ∧
      qxzOff s = flxzOff s + s.flxz * 8 ∧
      qauxOff s = qxzOff s + s.qxz * 8) := by
  refine ⟨by decide, by decide, fun s => ⟨rfl, rfl, rfl, rfl, rfl, rfl, rfl,
    rfl⟩⟩

/-- Lookup of the mass flux slot after the riemann writes: the strided flux
components are pairwise distinct when nstride is nonzero, so the read back
value is exactly the uflx rho output of the riemann call. -/
lemma pcFlx1_urho (O : Oracle α S) (i j k : ℤ) (ql : ℤ → α) (sql : Strided)
    (qr : ℤ → α) (sqr : Strided) (flx : ℤ → α) (sfl : Strided)
    (qa : ℤ → α) (sqa : Strided) (dir : ℤ) (hns : sfl.nstride ≠ 0) :
    pcFlx1 O i j k ql sql qr sqr flx sfl qa sqa dir (sfl.off i j k URHO) =
      (riemann O (pcInput i j k ql sql qr sqr qa sqa dir)).uflx_rho := by
  have h5 : URHO ≠ UEINT := by unfold URHO UEINT; decide
  have h4 : URHO ≠ UEDEN := by unfold URHO UEDEN; decide
  have h3 : URHO ≠ f2of dir := by
    unfold URHO f2of UMY UMZ; split_ifs <;> decide
  have h2 : URHO ≠ f1of dir := by
    unfold URHO f1of UMX UMY; split_ifs <;> decide
  have h1 : URHO ≠ f0of dir := by
    unfold URHO f0of UMX UMY UMZ; split_ifs <;> decide
  simp only [pcFlx1]
  rw [writeAt_ne _ _ _ _ (off_ne sfl hns i j k h5),
    writeAt_ne _ _ _ _ (off_ne sfl hns i j k h4),
    writeAt_ne _ _ _ _ (off_ne sfl hns i j k h3),
    writeAt_ne _ _ _ _ (off_ne sfl hns i j k h2),
    writeAt_ne _ _ _ _ (off_ne sfl hns i j k h1)]
  exact writeAt_self _ _ _

/-- Claim C1: for every cell and species, the value finally stored in the
species flux slot equals the passive upwind value computed from the mass
flux already written by the riemann solver and its returned contact
velocity ustar, and the URHO slot still holds the riemann mass flux; the
species fluxes computed inside the riemann solver go to dummy storage and
never reach the flux array.  The nstride of the flux field is nonzero,
which is the strided field contract that distinct components occupy
distinct offsets. -/
theorem claim_C1_species_flux_overwrite (O : Oracle α S) (i j k : ℤ)
    (ql : ℤ → α) (sql : Strided) (qr : ℤ → α) (sqr : Strided)
    (flx : ℤ → α) (sfl : Strided) (qA : ℤ → α) (sqi : Strided)
    (qa : ℤ → α) (sqa : Strided) (dir : ℤ) (hns : sfl.nstride ≠ 0)
    (n : Fin S) :
    (pc_cmpflx O i j k ql sql qr sqr flx sfl qA sqi qa sqa dir).1
        (sfl.off i j k URHO) =
      (riemann O (pcInput i j k ql sql qr sqr qa sqa dir)).uflx_rho ∧
    (pc_cmpflx O i j k ql sql qr sqr flx sfl qA sqi qa sqa dir).1
        (sfl.off i j k (UFS + (n.val : ℤ))) =
      (if 0 < (riemann O (pcInput i j k ql sql qr sqr qa sqa dir)).ustar
       then
         (riemann O (pcInput i j k ql sql qr sqr qa sqa dir)).uflx_rho *
           ql (sql.off i j k (QFS + (n.val : ℤ)))
       else
         if (riemann O (pcInput i j k ql sql qr sqr qa sqa dir)).ustar < 0
         then
           (riemann O (pcInput i j k ql sql qr sqr qa sqa dir)).uflx_rho *
             qr (sqr.off i j k (QFS + (n.val : ℤ)))
         else
           (riemann O (pcInput i j k ql sql qr sqr qa sqa dir)).uflx_rho *
             ((ql (sql.off i j k (QFS + (n.val : ℤ))) +
                 qr (sqr.off i j k (QFS + (n.val : ℤ)))) / 2)) := by
  constructor
  · have h1 : ∀ b ∈ List.finRange S,
        sfl.off i j k (UFS + ((b : Fin S).val : ℤ)) ≠
          sfl.off i j k URHO := by
      intro b _
      refine off_ne sfl hns i j k ?_
      simp only [UFS, URHO]
      omega
    have hstep :
        (pc_cmpflx O i j k ql sql qr sqr flx sfl qA sqi qa sqa dir).1
            (sfl.off i j k URHO) =
          pcFlx1 O i j k ql sql qr sqr flx sfl qa sqa dir
            (sfl.off i j k URHO) :=
      foldl_writeAt_notMem _ _ _ _ _ h1
    rw [hstep]
    exact pcFlx1_urho O i j k ql sql qr sqr flx sfl qa sqa dir hns
  · have h2 : ∀ c ∈ List.finRange S,
        sfl.off i j k (UFS + ((c : Fin S).val : ℤ)) =
          sfl.off i j k (UFS + (n.val : ℤ)) → c = n := by
      intro c _ hoff
      by_contra hc
      refine absurd hoff (off_ne sfl hns i j k fun he => hc (Fin.ext ?_))
      simp only [UFS] at he
      omega
    have hstep :
        (pc_cmpflx O i j k ql sql qr sqr flx sfl qA sqi qa sqa dir).1
            (sfl.off i j k (UFS + (n.val : ℤ))) =
          pcSpeciesVal O i j k ql sql qr sqr flx sfl qa sqa dir n :=
      foldl_writeAt_mem _ _ n (List.finRange S) _ (List.mem_finRange n) h2
    rw [hstep]
    unfold pcSpeciesVal
    rw [pcFlx1_urho O i j k ql sql qr sqr flx sfl qa sqa dir hns]
    unfold pc_cmpflx_passive
    split_ifs with ha hb
    · rfl
    · rfl
    · ring

/-- Claim C1 witness: unit strides on a single species cell. -/
theorem claim_C1_witness :
    sOne.nstride ≠ 0 ∧
    ((pc_cmpflx oC 0 0 0 onesA sOne onesA sOne zeroA sOne zeroA sOne onesA
          sOne 0).1 (sOne.off 0 0 0 URHO) =
        (riemann oC (pcInput 0 0 0 onesA sOne onesA sOne onesA sOne
          0)).uflx_rho ∧
      (pc_cmpflx oC 0 0 0 onesA sOne onesA sOne zeroA sOne zeroA sOne onesA
          sOne 0).1 (sOne.off 0 0 0 (UFS + ((0 : Fin 1).val : ℤ))) =
        (if 0 < (riemann oC (pcInput 0 0 0 onesA sOne onesA sOne onesA sOne
              0)).ustar
         then
           (riemann oC (pcInput 0 0 0 onesA sOne onesA sOne onesA sOne
              0)).uflx_rho *
             onesA (sOne.off 0 0 0 (QFS + ((0 : Fin 1).val : ℤ)))
         else
           if (riemann oC (pcInput 0 0 0 onesA sOne onesA sOne onesA sOne
              0)).ustar < 0
           then
             (riemann oC (pcInput 0 0 0 onesA sOne onesA sOne onesA sOne
                0)).uflx_rho *
               onesA (sOne.off 0 0 0 (QFS + ((0 : Fin 1).val : ℤ)))
           else
             (riemann oC (pcInput 0 0 0 onesA sOne onesA sOne onesA sOne
                0)).uflx_rho *
               ((onesA (sOne.off 0 0 0 (QFS + ((0 : Fin 1).val : ℤ))) +
                   onesA (sOne.off 0 0 0 (QFS + ((0 : Fin 1).val : ℤ)))) /
                 2))) :=
  ⟨by decide,
    claim_C1_species_flux_overwrite oC 0 0 0 onesA sOne onesA sOne zeroA
      sOne zeroA sOne onesA sOne 0 (by decide) 0⟩

/-- Claim C9: the driver hardcodes bc_test_val to one, so the interface
normal velocity slot receives exactly the unflipped Godunov sample qiu2,
and the qint iu output of the riemann call equals that sample: the
bc sign minus one flip is unreachable through the driver. -/
theorem claim_C9_bc_sign_hardcoded (O : Oracle α S) (i j k : ℤ)
    (ql : ℤ → α) (sql : Strided) (qr : ℤ → α) (sqr : Strided)
    (flx : ℤ → α) (sfl : Strided) (qA : ℤ → α) (sqi : Strided)
    (qa : ℤ → α) (sqa : Strided) (dir : ℤ) (hns : sqi.nstride ≠ 0) :
    (pc_cmpflx O i j k ql sql qr sqr flx sfl qA sqi qa sqa dir).2
        (sqi.off i j k (GUof dir)) =
      qiu2 O (pcInput i j k ql sql qr sqr qa sqa dir) ∧
    (riemann O (pcInput i j k ql sql qr sqr qa sqa dir)).qint_iu =
      qiu2 O (pcInput i j k ql sql qr sqr qa sqa dir) := by
  have hbc1 :
      (riemann O (pcInput i j k ql sql qr sqr qa sqa dir)).qint_iu =
        qiu2 O (pcInput i j k ql sql qr sqr qa sqa dir) := by
    rw [riemann_qint_iu, qiuF,
      show (pcInput i j k ql sql qr sqr qa sqa dir :
        RiemannInput α S).bc = 1 from rfl, one_mul]
  have hGG : GUof dir ≠ GDGAME := by
    unfold GUof GDU GDV GDW GDGAME; split_ifs <;> decide
  have hGP : GUof dir ≠ GDPRES := by
    unfold GUof GDU GDV GDW GDPRES; split_ifs <;> decide
  have hGV2 : GUof dir ≠ GV2of dir := by
    unfold GUof GV2of GDU GDV GDW; split_ifs <;> decide
  have hGV : GUof dir ≠ GVof dir := by
    unfold GUof GVof GDU GDV GDW; split_ifs <;> decide
  constructor
  · show pcQ1 O i j k ql sql qr sqr qA sqi qa sqa dir
        (sqi.off i j k (GUof dir)) = _
    simp only [pcQ1]
    rw [writeAt_ne _ _ _ _ (off_ne sqi hns i j k hGG),
      writeAt_ne _ _ _ _ (off_ne sqi hns i j k hGP),
      writeAt_ne _ _ _ _ (off_ne sqi hns i j k hGV2),
      writeAt_ne _ _ _ _ (off_ne sqi hns i j k hGV),
      writeAt_self]
    exact hbc1
  · exact hbc1

/-- Claim C9 witness: unit strides on a single species cell. -/
theorem claim_C9_witness :
    sOne.nstride ≠ 0 ∧
    ((pc_cmpflx oC 0 0 0 onesA sOne onesA sOne zeroA sOne zeroA sOne onesA
          sOne 0).2 (sOne.off 0 0 0 (GUof 0)) =
        qiu2 oC (pcInput 0 0 0 onesA sOne onesA sOne onesA sOne 0) ∧
      (riemann oC (pcInput 0 0 0 onesA sOne onesA sOne onesA sOne
          0)).qint_iu =
        qiu2 oC (pcInput 0 0 0 onesA sOne onesA sOne onesA sOne 0)) :=
  ⟨by decide,
    claim_C9_bc_sign_hardcoded oC 0 0 0 onesA sOne onesA sOne zeroA sOne
      zeroA sOne onesA sOne 0 (by decide)⟩

end Pele
